import Mathlib

/-!
Verification development for the Dr-Scanner repository.

The Python sources `scanner.py` and `file_manager.py` are shallowly embedded
below.  Pure computations (corner ordering, warp-size arithmetic, the contour
selection loop, thresholding, morphology, text search) are translated into
executable Lean definitions.  External OpenCV collaborators whose outputs the
claims do not constrain (Gaussian blur + Canny + findContours, CLAHE, the Otsu
threshold choice, the perspective resampling kernel, the OCR engine) are
parameters of the model, gathered in the `CV` structure; their documented
shape contracts (CLAHE preserves image geometry) are carried as fields.

Coordinates are integers: the quadrilaterals reaching `four_point_transform`
in this program are OpenCV contour points, which are integral pixel
coordinates.  `int(np.sqrt(n))` on a nonnegative integer radicand is
`Nat.sqrt`.  Intensities are natural numbers; OpenCV's value range 0..255 is
respected by every concrete operation modelled here.
-/

namespace DrScanner

/-- A 2-D point in image space, integer pixel coordinates `(x, y)`. -/
abbrev Point := Int × Int

/-- A contour: the ordered list of boundary points OpenCV extracts. -/
abbrev Contour := List Point

/-- A raster image: height, width, channel count, and an intensity lookup
`data row col channel`.  Values outside the stated bounds are irrelevant;
`Image.PixEq` below compares images on their actual domain. -/
structure Image where
  height : Nat
  width : Nat
  channels : Nat
  data : Nat → Nat → Nat → Nat

/-- Pixel-for-pixel equality: same geometry and same intensities at every
in-bounds coordinate. -/
def Image.PixEq (a b : Image) : Prop :=
  a.height = b.height ∧ a.width = b.width ∧ a.channels = b.channels ∧
  ∀ y x c, y < a.height → x < a.width → c < a.channels → a.data y x c = b.data y x c

/-- Errors raised by the modelled OpenCV calls.  `badChannels` is the
`cv2.cvtColor` assertion failure when the source does not have the channel
count the conversion code requires. -/
inductive CvErr where
  | badChannels
deriving DecidableEq

/-- The per-point sum `x + y` used by `order_points` (scanner.py line 14). -/
def pSum (p : Point) : Int := p.1 + p.2

/-- The per-point difference `y - x`, what `np.diff(pts, axis=1)` computes
(scanner.py line 17). -/
def pDiff (p : Point) : Int := p.2 - p.1

/-- One step of NumPy's argmin scan: keep the earlier index unless the new
value is strictly smaller. -/
def argminStep (f : Fin 4 → Int) (best i : Fin 4) : Fin 4 :=
  if f i < f best then i else best

/-- One step of NumPy's argmax scan: keep the earlier index unless the new
value is strictly larger. -/
def argmaxStep (f : Fin 4 → Int) (best i : Fin 4) : Fin 4 :=
  if f best < f i then i else best

/-- Model of `np.argmin` over a 4-vector: the first index attaining the minimum. -/
def argmin4 (f : Fin 4 → Int) : Fin 4 :=
  argminStep f (argminStep f (argminStep f 0 1) 2) 3

/-- Model of `np.argmax` over a 4-vector: the first index attaining the maximum. -/
def argmax4 (f : Fin 4 → Int) : Fin 4 :=
  argmaxStep f (argmaxStep f (argmaxStep f 0 1) 2) 3

/-- Embedding of `order_points` (scanner.py lines 9-20): slot 0 (top-left) is the point of
minimal coordinate sum, slot 2 (bottom-right) of maximal sum, slot 1
(top-right) of minimal difference `y - x`, slot 3 (bottom-left) of maximal
difference, each resolved to the first attaining index as NumPy does. -/
def order_points (pts : Fin 4 → Point) : Fin 4 → Point :=
  fun i =>
    match i with
    | 0 => pts (argmin4 (fun j => pSum (pts j)))
    | 1 => pts (argmin4 (fun j => pDiff (pts j)))
    | 2 => pts (argmax4 (fun j => pSum (pts j)))
    | 3 => pts (argmax4 (fun j => pDiff (pts j)))

/-- Squared Euclidean distance between two integer points, as a natural
number (the radicand of the `np.sqrt` calls in scanner.py lines 31-36). -/
def sqDist (p q : Point) : Nat := ((p.1 - q.1) ^ 2 + (p.2 - q.2) ^ 2).toNat

/-- Model of `int(np.sqrt(sqDist p q))`: the floor of the Euclidean distance. -/
def distFloor (p q : Point) : Nat := Nat.sqrt (sqDist p q)

/-- The output size `(maxWidth, maxHeight)` computed by
`four_point_transform` (scanner.py lines 30-37): first the corners are
canonically ordered, then each dimension is the max of the floors of the two
corresponding corner distances. -/
def rectDims (pts : Fin 4 → Point) : Nat × Nat :=
  let r := order_points pts
  let maxWidth := max (distFloor (r 2) (r 3)) (distFloor (r 1) (r 0))
  let maxHeight := max (distFloor (r 1) (r 2)) (distFloor (r 0) (r 3))
  (maxWidth, maxHeight)

/-- The external OpenCV/Tesseract collaborators the scanner calls, as model
parameters.  `contoursOf` stands for the composite
`findContours(Canny(GaussianBlur(gray)))` of scanner.py lines 60-66;
`arcLength` and `approxPolyDP` for `cv2.arcLength` / `cv2.approxPolyDP`;
`clahe` for `cv2.createCLAHE(3.0, (8,8)).apply`, which always returns an
image of the same geometry as its input (carried as the three contract
fields); `otsu` for the threshold value Otsu's method selects; `warpSample`
for the resampling kernel of `cv2.warpPerspective` under the transform of
`cv2.getPerspectiveTransform`. -/
structure CV where
  contoursOf : Image → List Contour
  arcLength : Contour → ℚ
  approxPolyDP : ℚ → Contour → List Point
  clahe : Image → Image
  clahe_height : ∀ i, (clahe i).height = i.height
  clahe_width : ∀ i, (clahe i).width = i.width
  clahe_channels : ∀ i, (clahe i).channels = i.channels
  otsu : Image → Nat
  warpSample : Image → (Fin 4 → Point) → Nat → Nat → Nat → Nat

/-- OpenCV's fixed-point BGR-to-gray luma: `0.299 R + 0.587 G + 0.114 B`,
rounded. -/
def luma (b g r : Nat) : Nat := (299 * r + 587 * g + 114 * b + 500) / 1000

/-- The gray image `cv2.cvtColor(img, COLOR_BGR2GRAY)` produces from a
3-channel image: same geometry, one channel, luma intensities. -/
def bgr2grayImage (img : Image) : Image :=
  { height := img.height
    width := img.width
    channels := 1
    data := fun y x _ => luma (img.data y x 0) (img.data y x 1) (img.data y x 2) }

/-- Model of `cv2.cvtColor(img, COLOR_BGR2GRAY)` (scanner.py lines 59, 106).
OpenCV asserts that the source of a BGR-to-gray conversion has 3 channels;
on any other channel count the call raises, modelled as `CvErr.badChannels`. -/
def cvtColor_BGR2GRAY (img : Image) : Except CvErr Image :=
  if img.channels = 3 then .ok (bgr2grayImage img) else .error .badChannels

/-- Model of `cv2.warpPerspective(img, M, (w, h))`: a new image of the
requested size with the source's channel count, resampled through the
abstract kernel.  OpenCV creates the destination with
`dsize.area() == 0 ? src.size() : dsize`: a requested size of zero area is
silently replaced by the source size, so the warp never produces an empty
image from a non-empty source. -/
def warpPerspective (cv : CV) (img : Image) (rect : Fin 4 → Point) (w h : Nat) : Image :=
  if w * h = 0 then
    { height := img.height, width := img.width, channels := img.channels,
      data := cv.warpSample img rect }
  else
    { height := h, width := w, channels := img.channels, data := cv.warpSample img rect }

/-- Embedding of `four_point_transform` (scanner.py lines 23-48).  The Python body
contains no raise and no degeneracy guard: `cv2.getPerspectiveTransform`
does not check the solvability of its linear system and
`cv2.warpPerspective` accepts the computed size, substituting the source
size when that size has zero area, so the function is total; the `Except`
type records that it has no error path of its own. -/
def four_point_transform (cv : CV) (img : Image) (pts : Fin 4 → Point) :
    Except CvErr Image :=
  .ok (warpPerspective cv img (order_points pts) (rectDims pts).1 (rectDims pts).2)

/-- Twice the signed area of the polygon with the given vertex list, by the
shoelace formula (the quantity `cv2.contourArea` halves). -/
def shoelace2 (p0 : Point) : List Point → Int
  | [] => 0
  | [p] => p.1 * p0.2 - p.2 * p0.1
  | p :: q :: rest => (p.1 * q.2 - p.2 * q.1) + shoelace2 p0 (q :: rest)

/-- Model of `cv2.contourArea`: the absolute polygon area `|shoelace| / 2`. -/
def contourArea : List Point → ℚ
  | [] => 0
  | p :: rest => ((shoelace2 p (p :: rest)).natAbs : ℚ) / 2

/-- Model of the `cv2.boundingRect` width and height of an integer point set: for integral
contours OpenCV returns the inclusive pixel bounding box, so each extent is
`max - min + 1`. -/
def boundingRectWH : List Point → Nat × Nat
  | [] => (0, 0)
  | p :: rest =>
    let xs := (p :: rest).map Prod.fst
    let ys := (p :: rest).map Prod.snd
    (((xs.foldl max p.1) - (xs.foldl min p.1)).toNat + 1,
     ((ys.foldl max p.2) - (ys.foldl min p.2)).toNat + 1)

/-- The polygon `cv2.approxPolyDP(c, 0.02 * cv2.arcLength(c, True), True)`
computed at scanner.py lines 73-74: the approximation tolerance is 2% of the
contour perimeter. -/
def approxOf (cv : CV) (c : Contour) : List Point :=
  cv.approxPolyDP (2 / 100 * cv.arcLength c) c

/-- The acceptance test of the loop body (scanner.py lines 75-83): the
approximated polygon has exactly 4 vertices, its area is strictly between
0.2 and 0.7 of the image area, and its bounding-box width over height is
strictly between 0.5 and 2.0. -/
def passes (cv : CV) (imgArea : ℚ) (c : Contour) : Prop :=
  (approxOf cv c).length = 4 ∧
  (2 / 10 : ℚ) < contourArea (approxOf cv c) / imgArea ∧
  contourArea (approxOf cv c) / imgArea < 7 / 10 ∧
  (1 / 2 : ℚ) < ((boundingRectWH (approxOf cv c)).1 : ℚ) / ((boundingRectWH (approxOf cv c)).2 : ℚ) ∧
  ((boundingRectWH (approxOf cv c)).1 : ℚ) / ((boundingRectWH (approxOf cv c)).2 : ℚ) < 2

instance (cv : CV) (imgArea : ℚ) (c : Contour) : Decidable (passes cv imgArea c) := by
  unfold passes; infer_instance

/-- The `for c in contours: ... break` loop of scanner.py lines 72-85: scan
the (already sorted) contours in order; the first whose approximation has 4
vertices and passes the area-fraction and aspect checks is kept and the loop
stops; otherwise the scan continues, and an exhausted list leaves the
candidate `None`. -/
def scanContours (cv : CV) (imgArea : ℚ) : List Contour → Option (List Point)
  | [] => none
  | c :: rest =>
    if (approxOf cv c).length = 4 then
      if (2 / 10 : ℚ) < contourArea (approxOf cv c) / imgArea ∧
          contourArea (approxOf cv c) / imgArea < 7 / 10 then
        if (1 / 2 : ℚ) < ((boundingRectWH (approxOf cv c)).1 : ℚ) / ((boundingRectWH (approxOf cv c)).2 : ℚ) ∧
            ((boundingRectWH (approxOf cv c)).1 : ℚ) / ((boundingRectWH (approxOf cv c)).2 : ℚ) < 2 then
          some (approxOf cv c)
        else scanContours cv imgArea rest
      else scanContours cv imgArea rest
    else scanContours cv imgArea rest

/-- Embedding of `sorted(contours, key=cv2.contourArea, reverse=True)`
(scanner.py line
67): a stable sort placing larger-area contours first, ties keeping their
original relative order, exactly as Python's stable `sorted`. -/
def sortByAreaDesc (l : List Contour) : List Contour :=
  l.mergeSort fun c d => decide (contourArea d ≤ contourArea c)

/-- Model of `candidate.reshape(4, 2)`: the approximated polygon read as a runtime
quadruple of points. -/
def quadOfList (l : List Point) : Fin 4 → Point :=
  fun i => l.getD i.val (0, 0)

/-- Embedding of `detect_document` (scanner.py lines 51-89): convert to gray (which is
where a non-3-channel input raises), extract and sort the contours, scan for
the first acceptable 4-vertex approximation; warp to it when found and
return the original image otherwise. -/
def detect_document (cv : CV) (image : Image) : Except CvErr Image :=
  match cvtColor_BGR2GRAY image with
  | .error e => .error e
  | .ok gray =>
    match scanContours cv ((image.height * image.width : Nat) : ℚ)
        (sortByAreaDesc (cv.contoursOf gray)) with
    | some approx => four_point_transform cv image (quadOfList approx)
    | none => .ok image

/-- Model of `cv2.threshold(img, 0, 255, THRESH_BINARY + THRESH_OTSU)` at the
threshold value `t` that Otsu's method selected: each intensity strictly
above `t` becomes 255 and every other becomes 0. -/
def thresholdBinary (t : Nat) (img : Image) : Image :=
  { img with data := fun y x c => if t < img.data y x c then 255 else 0 }

/-- A morphological structuring element: a rows-by-cols matrix of weights
whose nonzero entries form the neighbourhood, with OpenCV's default centre
anchor `(rows / 2, cols / 2)`. -/
structure Kernel where
  rows : Nat
  cols : Nat
  entry : Nat → Nat → Nat

/-- The offsets of the nonzero kernel entries. -/
def Kernel.support (k : Kernel) : List (Nat × Nat) :=
  (List.range k.rows).flatMap fun i =>
    (List.range k.cols).filterMap fun j =>
      if k.entry i j ≠ 0 then some (i, j) else none

/-- Model of `np.ones((1, 1), np.uint8)` (scanner.py line 114). -/
def ones11 : Kernel := { rows := 1, cols := 1, entry := fun _ _ => 1 }

/-- The in-bounds source intensities a morphological operation aggregates at
an output pixel: one sample per kernel support offset, relative to the
centre anchor; out-of-bounds positions contribute nothing (OpenCV's default
morphology border acts as the aggregation identity). -/
def morphSamples (k : Kernel) (img : Image) (y x c : Nat) : List Nat :=
  k.support.filterMap fun ij =>
    if ((y : Int) + ij.1 - (k.rows / 2 : Nat) < 0 ∨
        (img.height : Int) ≤ (y : Int) + ij.1 - (k.rows / 2 : Nat) ∨
        (x : Int) + ij.2 - (k.cols / 2 : Nat) < 0 ∨
        (img.width : Int) ≤ (x : Int) + ij.2 - (k.cols / 2 : Nat)) then
      none
    else
      some (img.data ((y : Int) + ij.1 - (k.rows / 2 : Nat)).toNat
                     ((x : Int) + ij.2 - (k.cols / 2 : Nat)).toNat c)

/-- Model of `cv2.erode`: the minimum of the sampled neighbourhood (255, the additive
identity of `min` on 8-bit data, when no sample is in bounds). -/
def erode (k : Kernel) (img : Image) : Image :=
  { img with data := fun y x c =>
      match morphSamples k img y x c with
      | [] => 255
      | a :: rest => rest.foldl min a }

/-- Model of `cv2.dilate`: the maximum of the sampled neighbourhood. -/
def dilate (k : Kernel) (img : Image) : Image :=
  { img with data := fun y x c =>
      match morphSamples k img y x c with
      | [] => 0
      | a :: rest => rest.foldl max a }

/-- Model of `cv2.morphologyEx(img, MORPH_OPEN, k)`: erosion then dilation
(scanner.py line 117). -/
def morphologyOpen (k : Kernel) (img : Image) : Image := dilate k (erode k img)

/-- Model of `cv2.morphologyEx(img, MORPH_CLOSE, k)`: dilation then erosion
(scanner.py line 119). -/
def morphologyClose (k : Kernel) (img : Image) : Image := erode k (dilate k img)

/-- The normalization tail of `preprocess_image` (scanner.py lines 107-121)
applied to an already-gray image: CLAHE enhancement, Otsu thresholding,
morphological opening then closing with the 1-by-1 kernel. -/
def normalizeGray (cv : CV) (gray : Image) : Image :=
  morphologyClose ones11
    (morphologyOpen ones11
      (thresholdBinary (cv.otsu (cv.clahe gray)) (cv.clahe gray)))

/-- Embedding of `preprocess_image` (scanner.py lines 92-121): document detection and
warp, gray conversion, then the normalization tail. -/
def preprocess_image (cv : CV) (image : Image) : Except CvErr Image :=
  match detect_document cv image with
  | .error e => .error e
  | .ok detected =>
    match cvtColor_BGR2GRAY detected with
    | .error e => .error e
    | .ok gray => .ok (normalizeGray cv gray)

/-- Stage cut of `preprocess_image` before the morphology steps: everything up
to and including Otsu thresholding (scanner.py lines 102-111). -/
def otsuStage (cv : CV) (image : Image) : Except CvErr Image :=
  match detect_document cv image with
  | .error e => .error e
  | .ok detected =>
    match cvtColor_BGR2GRAY detected with
    | .error e => .error e
    | .ok gray => .ok (thresholdBinary (cv.otsu (cv.clahe gray)) (cv.clahe gray))

/-- Embedding of `extract_text` (scanner.py lines 124-135): call the OCR collaborator
inside `try`, return the stripped text on success and the empty string on
any collaborator exception. -/
def extract_text {ε : Type} (ocr : Image → Except ε String) (img : Image) : String :=
  match ocr img with
  | .ok t => t.trim
  | .error _ => ""

/-- Python `str.lower` restricted to the simple one-to-one case mappings. -/
def pyLower (s : String) : String := s.map Char.toLower

/-- Model of Python `haystack.find(needle)` over character lists: the first index at which
the needle occurs as a prefix of the remaining haystack, if any. -/
def findSubIdx (hay needle : List Char) : Option Nat :=
  match hay with
  | [] => if needle = [] then some 0 else none
  | _ :: rest =>
    if needle.isPrefixOf hay then some 0
    else (findSubIdx rest needle).map (· + 1)

/-- The snippet built at file_manager.py lines 96-99: the slice of the
content from `max(index - 30, 0)` to `min(index + qlen + 30, len)`, with
newlines replaced by spaces. -/
def snippetAt (content : String) (index qlen : Nat) : String :=
  let start := index - 30
  let stop := min (index + qlen + 30) content.length
  String.mk (((content.data.drop start).take (stop - start)).map
    fun ch => if ch = '\n' then ' ' else ch)

/-- Embedding of `search_documents` (file_manager.py lines 82-103) over an
abstract directory listing of `(path, content)` pairs in walk order: for each file
whose name ends in `.txt`, test the lowercased content for the lowercased
query and, on a hit, record the path and the clamped context snippet at the
first match index. -/
def search_documents (query : String) : List (String × String) → List (String × String)
  | [] => []
  | (path, content) :: rest =>
    if path.endsWith (".txt") then
      match findSubIdx (pyLower content).data (pyLower query).data with
      | some index => (path, snippetAt content index query.length) :: search_documents query rest
      | none => search_documents query rest
    else search_documents query rest

/-- The search routine as the specification words it: a case-insensitive
substring lookup across all persisted text files, keeping for each matching
file a context snippet extending 30 characters each side of the match,
clamped to the content's boundaries. -/
def search_documents_spec (query : String) (files : List (String × String)) :
    List (String × String) :=
  files.filterMap fun pc =>
    if pc.1.endsWith (".txt") then
      match findSubIdx (pyLower pc.2).data (pyLower query).data with
      | some index => some (pc.1, snippetAt pc.2 index query.length)
      | none => none
    else none

/-- The 2-D cross product of two vectors, the turn-direction test. -/
def cross2 (u v : Point) : Int := u.1 * v.2 - u.2 * v.1

/-- Executable strict-convexity check for a quadrilateral given in cyclic
vertex order: every consecutive turn is strictly counterclockwise.  A
quadruple passing this check is simple, has positive area, and contains no
three collinear points. -/
def quadConvexB (q : Fin 4 → Point) : Bool :=
  decide (∀ i : Fin 4, 0 < cross2 (q (i + 1) - q i) (q (i + 2) - q (i + 1)))

/-- Lifts `Image.PixEq` to the `Except` results of two pipeline runs. -/
def ExceptPix : Except CvErr Image → Except CvErr Image → Prop
  | .ok a, .ok b => a.PixEq b
  | .error e, .error f => e = f
  | _, _ => False

/-- A concrete collaborator instance used to evaluate the model on concrete
inputs: it reports no contours, approximates trivially, enhances by the
identity, and resamples to black. -/
def cvId : CV where
  contoursOf := fun _ => []
  arcLength := fun _ => 0
  approxPolyDP := fun _ c => c
  clahe := id
  clahe_height := fun _ => rfl
  clahe_width := fun _ => rfl
  clahe_channels := fun _ => rfl
  otsu := fun _ => 127
  warpSample := fun _ _ _ _ _ => 0

/-- A concrete well-formed 3-channel 2-by-2 input image. -/
def imgRGB : Image := { height := 2, width := 2, channels := 3, data := fun _ _ _ => 5 }

/-- A concrete well-formed single-channel 1-by-1 input image. -/
def imgGray1 : Image := { height := 1, width := 1, channels := 1, data := fun _ _ _ => 5 }

/-- A concrete non-empty grayscale image. -/
def grayTest : Image := { height := 2, width := 3, channels := 1, data := fun y x _ => y + x }

/-- A fully degenerate quadrilateral: four copies of one point, hence
collinear, with both computed warp dimensions equal to zero. -/
def degQuad : Fin 4 → Point := fun _ => (1, 1)

/-- A strictly convex quadrilateral (a tall diamond rotated well past the
corner heuristic's 45-degree range): positive area, no three points
collinear, bounding box 11 by 13. -/
def diamondQuad : Fin 4 → Point := ![(5, 0), (10, 6), (5, 12), (0, 6)]

/-- A quadruple on which the coordinate sums tie: three of its points share
the maximal sum, so the first-occurrence argmax moves under reordering. -/
def tieQuad : Fin 4 → Point := ![(0, 0), (4, 1), (5, 0), (1, 4)]

/-- A quadruple already in canonical order with all four extremes uniquely
attained. -/
def strictQuad : Fin 4 → Point := ![(0, 0), (6, 1), (7, 8), (1, 6)]

/-- An axis-aligned square, canonical for the ordering heuristic. -/
def squareQuad : Fin 4 → Point := ![(0, 0), (9, 0), (9, 9), (0, 9)]

/-- An OCR collaborator that always fails. -/
def failOcr : Image → Except Unit String := fun _ => .error ()

theorem argmin4_eq_zero {f : Fin 4 → Int} (h1 : f 0 < f 1) (h2 : f 0 < f 2)
    (h3 : f 0 < f 3) : argmin4 f = 0 := by
  have n1 : ¬ f 1 < f 0 := not_lt.mpr h1.le
  have n2 : ¬ f 2 < f 0 := not_lt.mpr h2.le
  have n3 : ¬ f 3 < f 0 := not_lt.mpr h3.le
  simp [argmin4, argminStep, n1, n2, n3]

theorem argmin4_eq_one {f : Fin 4 → Int} (h0 : f 1 < f 0) (h2 : f 1 < f 2)
    (h3 : f 1 < f 3) : argmin4 f = 1 := by
  have n2 : ¬ f 2 < f 1 := not_lt.mpr h2.le
  have n3 : ¬ f 3 < f 1 := not_lt.mpr h3.le
  simp [argmin4, argminStep, h0, n2, n3]

theorem argmax4_eq_two {f : Fin 4 → Int} (h0 : f 0 < f 2) (h1 : f 1 < f 2)
    (h3 : f 3 < f 2) : argmax4 f = 2 := by
  have n3 : ¬ f 2 < f 3 := not_lt.mpr h3.le
  by_cases hab : f 0 < f 1 <;> simp [argmax4, argmaxStep, hab, h0, h1, n3]

theorem argmax4_eq_three {f : Fin 4 → Int} (h0 : f 0 < f 3) (h1 : f 1 < f 3)
    (h2 : f 2 < f 3) : argmax4 f = 3 := by
  by_cases hab : f 0 < f 1
  · by_cases hc : f 1 < f 2 <;> simp [argmax4, argmaxStep, hab, hc, h0, h1, h2]
  · by_cases hc : f 0 < f 2 <;> simp [argmax4, argmaxStep, hab, hc, h0, h1, h2]

/-- C6 counterexample: `tieQuad` is the output `order_points` produces for
the input `![(0,0),(4,1),(5,0),(1,4)]` read in its own order — three of its
points tie at the maximal coordinate sum, so reapplying `order_points`
relocates the bottom-right slot to the first tying point and changes the
quadruple.  `order_points` is therefore not idempotent: applying it again to
its own (canonically ordered) output does not return the same 4 points. -/
theorem order_points_not_idempotent :
    order_points (order_points tieQuad) ≠ order_points tieQuad := by decide

/-- C6 (amended): `order_points` fixes — and is hence idempotent on — every
quadruple whose four extremes are uniquely attained at the canonical slots:
slot 0 the strict minimum of the coordinate sums, slot 2 the strict maximum,
slot 1 the strict minimum of the differences `y - x`, slot 3 the strict
maximum.  With ties among the extremes, first-occurrence argmin/argmax can
move a corner, as the counterexample shows. -/
theorem order_points_idem_of_strict (pts : Fin 4 → Point)
    (hTL : pSum (pts 0) < pSum (pts 1) ∧ pSum (pts 0) < pSum (pts 2) ∧
      pSum (pts 0) < pSum (pts 3))
    (hBR : pSum (pts 0) < pSum (pts 2) ∧ pSum (pts 1) < pSum (pts 2) ∧
      pSum (pts 3) < pSum (pts 2))
    (hTR : pDiff (pts 1) < pDiff (pts 0) ∧ pDiff (pts 1) < pDiff (pts 2) ∧
      pDiff (pts 1) < pDiff (pts 3))
    (hBL : pDiff (pts 0) < pDiff (pts 3) ∧ pDiff (pts 1) < pDiff (pts 3) ∧
      pDiff (pts 2) < pDiff (pts 3)) :
    order_points pts = pts ∧ order_points (order_points pts) = order_points pts := by
  have fix : order_points pts = pts := by
    funext i
    fin_cases i
    · show pts (argmin4 fun j => pSum (pts j)) = pts 0
      rw [argmin4_eq_zero hTL.1 hTL.2.1 hTL.2.2]
    · show pts (argmin4 fun j => pDiff (pts j)) = pts 1
      rw [argmin4_eq_one hTR.1 hTR.2.1 hTR.2.2]
    · show pts (argmax4 fun j => pSum (pts j)) = pts 2
      rw [argmax4_eq_two hBR.1 hBR.2.1 hBR.2.2]
    · show pts (argmax4 fun j => pDiff (pts j)) = pts 3
      rw [argmax4_eq_three hBL.1 hBL.2.1 hBL.2.2]
  exact ⟨fix, by rw [fix, fix]⟩

/-- Witness for the amended C6 theorem at the concrete strict quadruple. -/
theorem order_points_idem_of_strict_witness :
    order_points strictQuad = strictQuad ∧
    order_points (order_points strictQuad) = order_points strictQuad :=
  order_points_idem_of_strict strictQuad (by decide) (by decide) (by decide) (by decide)

/-- C3 counterexample: the fully degenerate quadrilateral `degQuad` (four
identical points, hence collinear) yields computed target width and height
both zero — exactly the error condition the claim describes — yet
`four_point_transform` does not fail with any error: through OpenCV's
zero-area size fallback it returns a source-sized warped image.  No
`InvalidGeometryError` exists in the repository. -/
theorem four_point_transform_no_error_on_degenerate :
    rectDims degQuad = (0, 0) ∧
    four_point_transform cvId imgRGB degQuad =
      Except.ok (warpPerspective cvId imgRGB (order_points degQuad) 0 0) ∧
    (warpPerspective cvId imgRGB (order_points degQuad) 0 0).height = imgRGB.height ∧
    (warpPerspective cvId imgRGB (order_points degQuad) 0 0).width = imgRGB.width :=
  ⟨by decide, rfl, rfl, rfl⟩

/-- C3 (amended): `four_point_transform` performs no degeneracy check and
never raises: for every quadrilateral, degenerate or not, it returns a
warped image — of the computed dimensions when their area is nonzero, and
of the source dimensions when a computed dimension is zero (OpenCV's
zero-area size fallback) — and the orchestrator has no rectification
fallback to recover with. -/
theorem four_point_transform_total (cv : CV) (img : Image) (pts : Fin 4 → Point) :
    ∃ out, four_point_transform cv img pts = .ok out ∧
      out.channels = img.channels ∧
      out.width = (if (rectDims pts).1 * (rectDims pts).2 = 0 then img.width
        else (rectDims pts).1) ∧
      out.height = (if (rectDims pts).1 * (rectDims pts).2 = 0 then img.height
        else (rectDims pts).2) := by
  by_cases hz : (rectDims pts).1 * (rectDims pts).2 = 0 <;>
    exact ⟨warpPerspective cv img (order_points pts) (rectDims pts).1 (rectDims pts).2,
      rfl, by simp [warpPerspective, hz], by simp [warpPerspective, hz],
      by simp [warpPerspective, hz]⟩

theorem distFloor_pos {p q : Point} (h : p ≠ q) : 0 < distFloor p q := by
  have hne : p.1 ≠ q.1 ∨ p.2 ≠ q.2 := by
    by_contra h'
    push_neg at h'
    exact h (Prod.ext h'.1 h'.2)
  have key : (1 : Int) ≤ (p.1 - q.1) ^ 2 + (p.2 - q.2) ^ 2 := by
    rcases hne with h' | h'
    · have h1 : 1 ≤ |p.1 - q.1| := Int.one_le_abs (sub_ne_zero.mpr h')
      nlinarith [sq_nonneg (p.2 - q.2), sq_abs (p.1 - q.1)]
    · have h1 : 1 ≤ |p.2 - q.2| := Int.one_le_abs (sub_ne_zero.mpr h')
      nlinarith [sq_nonneg (p.1 - q.1), sq_abs (p.2 - q.2)]
  have : 0 < sqDist p q := by
    unfold sqDist
    omega
  exact Nat.sqrt_pos.mpr this

/-- C4 counterexample: `diamondQuad` is a valid, non-degenerate
quadrilateral — strictly convex, so simple, of positive area, with no three
points collinear — on which both clauses of the claim fail.  The
corner-ordering heuristic assigns the same point to both bottom corners and
to both top corners for this beyond-45-degree rotation, so the floor of the
maximum of the two width-defining distances is 0, which cannot be a
positive output width; and the warp output actually produced, through
OpenCV's zero-area size fallback, is source-sized, so its width is not that
floor either. -/
theorem rectify_zero_width_on_nondegenerate :
    quadConvexB diamondQuad = true ∧ (rectDims diamondQuad).1 = 0 ∧
    four_point_transform cvId imgRGB diamondQuad =
      Except.ok (warpPerspective cvId imgRGB (order_points diamondQuad)
        (rectDims diamondQuad).1 (rectDims diamondQuad).2) ∧
    (warpPerspective cvId imgRGB (order_points diamondQuad)
      (rectDims diamondQuad).1 (rectDims diamondQuad).2).width ≠
      (rectDims diamondQuad).1 := by
  have h1 : (rectDims diamondQuad).1 = 0 := by decide
  refine ⟨by decide, h1, rfl, ?_⟩
  unfold warpPerspective
  rw [if_pos (by rw [h1, Nat.zero_mul])]
  rw [h1]
  decide

/-- C4 (amended): whenever the canonically ordered corners contain two
distinct width-defining points and two distinct height-defining points, the
warp output dimensions equal the floors of the maxima of the two
width-defining and the two height-defining corner distances, and both are
positive.  Non-degeneracy of the input quadrilateral alone does not
guarantee this: a strictly convex but strongly rotated quadrilateral can
collapse the corner pairs, making a computed floor zero, in which case
OpenCV's zero-area size fallback produces a source-sized image instead. -/
theorem four_point_transform_dims (cv : CV) (img : Image) (pts : Fin 4 → Point)
    (hw : order_points pts 2 ≠ order_points pts 3 ∨
      order_points pts 1 ≠ order_points pts 0)
    (hh : order_points pts 1 ≠ order_points pts 2 ∨
      order_points pts 0 ≠ order_points pts 3) :
    ∃ out, four_point_transform cv img pts = .ok out ∧
      out.width = max (Nat.sqrt (sqDist (order_points pts 2) (order_points pts 3)))
        (Nat.sqrt (sqDist (order_points pts 1) (order_points pts 0))) ∧
      out.height = max (Nat.sqrt (sqDist (order_points pts 1) (order_points pts 2)))
        (Nat.sqrt (sqDist (order_points pts 0) (order_points pts 3))) ∧
      0 < out.width ∧ 0 < out.height := by
  have hwpos : 0 < (rectDims pts).1 := by
    rcases hw with h | h
    · exact lt_of_lt_of_le (distFloor_pos h) (le_max_left _ _)
    · exact lt_of_lt_of_le (distFloor_pos h) (le_max_right _ _)
  have hhpos : 0 < (rectDims pts).2 := by
    rcases hh with h | h
    · exact lt_of_lt_of_le (distFloor_pos h) (le_max_left _ _)
    · exact lt_of_lt_of_le (distFloor_pos h) (le_max_right _ _)
  have hz : ¬ ((rectDims pts).1 * (rectDims pts).2 = 0) :=
    Nat.mul_ne_zero (by omega) (by omega)
  refine ⟨warpPerspective cv img (order_points pts) (rectDims pts).1 (rectDims pts).2,
    rfl, ?_, ?_, ?_, ?_⟩
  · unfold warpPerspective
    rw [if_neg hz]
    exact rfl
  · unfold warpPerspective
    rw [if_neg hz]
    exact rfl
  · unfold warpPerspective
    rw [if_neg hz]
    exact hwpos
  · unfold warpPerspective
    rw [if_neg hz]
    exact hhpos

/-- Witness for the amended C4 theorem at the concrete axis-aligned square. -/
theorem four_point_transform_dims_witness :
    ∃ out, four_point_transform cvId imgRGB squareQuad = .ok out ∧
      out.width = max (Nat.sqrt (sqDist (order_points squareQuad 2) (order_points squareQuad 3)))
        (Nat.sqrt (sqDist (order_points squareQuad 1) (order_points squareQuad 0))) ∧
      out.height = max (Nat.sqrt (sqDist (order_points squareQuad 1) (order_points squareQuad 2)))
        (Nat.sqrt (sqDist (order_points squareQuad 0) (order_points squareQuad 3))) ∧
      0 < out.width ∧ 0 < out.height :=
  four_point_transform_dims cvId imgRGB squareQuad (by decide) (by decide)

theorem scanContours_eq_find (cv : CV) (A : ℚ) (l : List Contour) :
    scanContours cv A l =
      (l.find? fun c => decide (passes cv A c)).map (approxOf cv) := by
  induction l with
  | nil => rfl
  | cons c rest ih =>
    by_cases h1 : (approxOf cv c).length = 4
    · by_cases h2 : (2 / 10 : ℚ) < contourArea (approxOf cv c) / A ∧
          contourArea (approxOf cv c) / A < 7 / 10
      · by_cases h3 : (1 / 2 : ℚ) <
            ((boundingRectWH (approxOf cv c)).1 : ℚ) / ((boundingRectWH (approxOf cv c)).2 : ℚ) ∧
            ((boundingRectWH (approxOf cv c)).1 : ℚ) / ((boundingRectWH (approxOf cv c)).2 : ℚ) < 2
        · have hp : passes cv A c := ⟨h1, h2.1, h2.2, h3.1, h3.2⟩
          unfold scanContours
          rw [if_pos h1, if_pos h2, if_pos h3, List.find?_cons, decide_eq_true hp]
          rfl
        · have hp : ¬ passes cv A c := fun hh => h3 ⟨hh.2.2.2.1, hh.2.2.2.2⟩
          unfold scanContours
          rw [if_pos h1, if_pos h2, if_neg h3, List.find?_cons, decide_eq_false hp, ih]
      · have hp : ¬ passes cv A c := fun hh => h2 ⟨hh.2.1, hh.2.2.1⟩
        unfold scanContours
        rw [if_pos h1, if_neg h2, List.find?_cons, decide_eq_false hp, ih]
    · have hp : ¬ passes cv A c := fun hh => h1 hh.1
      unfold scanContours
      rw [if_neg h1, List.find?_cons, decide_eq_false hp, ih]

/-- C5: the contour scan of `detect_document` selects exactly the first
element — in the area-descending order produced by the stable sort — whose
2%-of-perimeter polygon approximation has exactly 4 vertices, image-area
fraction strictly between 0.2 and 0.7, and bounding-box aspect strictly
between 0.5 and 2.0; no later contour is considered after the first match
(`List.find?` semantics), and the scanned list is a permutation of the
extracted contours sorted by non-increasing enclosed area. -/
theorem scan_selects_first_passing (cv : CV) (A : ℚ) (l : List Contour) :
    scanContours cv A (sortByAreaDesc l) =
      ((sortByAreaDesc l).find? fun c => decide (passes cv A c)).map (approxOf cv) ∧
    (sortByAreaDesc l).Pairwise (fun c d => contourArea d ≤ contourArea c) ∧
    List.Perm (sortByAreaDesc l) l := by
  refine ⟨scanContours_eq_find cv A (sortByAreaDesc l), ?_, List.mergeSort_perm l _⟩
  have hs := @List.sorted_mergeSort Contour
    (fun c d : Contour => decide (contourArea d ≤ contourArea c))
    (fun a b c hab hbc => by
      simp only [decide_eq_true_eq] at hab hbc ⊢
      exact hbc.trans hab)
    (fun a b => by
      simp only [Bool.or_eq_true, decide_eq_true_eq]
      exact le_total (contourArea b) (contourArea a))
    l
  exact hs.imp fun h => by simpa using h

theorem Image.PixEq.trans {a b c : Image} (h : a.PixEq b) (g : b.PixEq c) :
    a.PixEq c := by
  obtain ⟨h1, h2, h3, h4⟩ := h
  obtain ⟨g1, g2, g3, g4⟩ := g
  refine ⟨h1.trans g1, h2.trans g2, h3.trans g3, ?_⟩
  intro y x cc hy hx hc
  rw [h4 y x cc hy hx hc, g4 y x cc (h1 ▸ hy) (h2 ▸ hx) (h3 ▸ hc)]

theorem ones11_support : Kernel.support ones11 = [(0, 0)] := rfl

theorem morphSamples_ones11 (img : Image) (y x c : Nat)
    (hy : y < img.height) (hx : x < img.width) :
    morphSamples ones11 img y x c = [img.data y x c] := by
  simp only [morphSamples, ones11_support, List.filterMap_cons, List.filterMap_nil]
  norm_num [ones11]
  rw [if_neg (by omega)]

theorem erode_ones11 (img : Image) : (erode ones11 img).PixEq img := by
  refine ⟨rfl, rfl, rfl, ?_⟩
  intro y x c hy hx _
  simp only [erode]
  rw [morphSamples_ones11 img y x c hy hx]
  rfl

theorem dilate_ones11 (img : Image) : (dilate ones11 img).PixEq img := by
  refine ⟨rfl, rfl, rfl, ?_⟩
  intro y x c hy hx _
  simp only [dilate]
  rw [morphSamples_ones11 img y x c hy hx]
  rfl

theorem morphologyOpen_ones11 (img : Image) : (morphologyOpen ones11 img).PixEq img :=
  (dilate_ones11 (erode ones11 img)).trans (erode_ones11 img)

theorem morphologyClose_ones11 (img : Image) : (morphologyClose ones11 img).PixEq img :=
  (erode_ones11 (dilate ones11 img)).trans (dilate_ones11 img)

theorem foldl_min_binary : ∀ (l : List Nat) (a : Nat), (a = 0 ∨ a = 255) →
    (∀ v ∈ l, v = 0 ∨ v = 255) →
    (List.foldl min a l = 0 ∨ List.foldl min a l = 255) := by
  intro l
  induction l with
  | nil => intro a ha _; exact ha
  | cons v rest ih =>
    intro a ha hl
    simp only [List.foldl_cons]
    refine ih (min a v) ?_ fun w hw => hl w (List.mem_cons_of_mem _ hw)
    have hv := hl v (List.mem_cons_self _ _)
    omega

theorem foldl_max_binary : ∀ (l : List Nat) (a : Nat), (a = 0 ∨ a = 255) →
    (∀ v ∈ l, v = 0 ∨ v = 255) →
    (List.foldl max a l = 0 ∨ List.foldl max a l = 255) := by
  intro l
  induction l with
  | nil => intro a ha _; exact ha
  | cons v rest ih =>
    intro a ha hl
    simp only [List.foldl_cons]
    refine ih (max a v) ?_ fun w hw => hl w (List.mem_cons_of_mem _ hw)
    have hv := hl v (List.mem_cons_self _ _)
    omega

theorem morphSamples_vals (k : Kernel) (img : Image) (y x c : Nat)
    (P : Nat → Prop) (hP : ∀ y' x', P (img.data y' x' c)) :
    ∀ v ∈ morphSamples k img y x c, P v := by
  intro v hv
  simp only [morphSamples, List.mem_filterMap] at hv
  obtain ⟨ij, _, hsome⟩ := hv
  split at hsome
  · exact absurd hsome (by simp)
  · rw [← Option.some.inj hsome]
    exact hP _ _

theorem erode_binary (k : Kernel) (img : Image)
    (h : ∀ y x c, img.data y x c = 0 ∨ img.data y x c = 255) :
    ∀ y x c, (erode k img).data y x c = 0 ∨ (erode k img).data y x c = 255 := by
  intro y x c
  simp only [erode]
  have hall := morphSamples_vals k img y x c (fun v => v = 0 ∨ v = 255)
    fun y' x' => h y' x' c
  cases hm : morphSamples k img y x c with
  | nil => right; rfl
  | cons a rest =>
    rw [hm] at hall
    exact foldl_min_binary rest a (hall a (List.mem_cons_self _ _))
      fun v hv => hall v (List.mem_cons_of_mem _ hv)

theorem dilate_binary (k : Kernel) (img : Image)
    (h : ∀ y x c, img.data y x c = 0 ∨ img.data y x c = 255) :
    ∀ y x c, (dilate k img).data y x c = 0 ∨ (dilate k img).data y x c = 255 := by
  intro y x c
  simp only [dilate]
  have hall := morphSamples_vals k img y x c (fun v => v = 0 ∨ v = 255)
    fun y' x' => h y' x' c
  cases hm : morphSamples k img y x c with
  | nil => left; rfl
  | cons a rest =>
    rw [hm] at hall
    exact foldl_max_binary rest a (hall a (List.mem_cons_self _ _))
      fun v hv => hall v (List.mem_cons_of_mem _ hv)

theorem thresholdBinary_binary (t : Nat) (img : Image) :
    ∀ y x c, (thresholdBinary t img).data y x c = 0 ∨
      (thresholdBinary t img).data y x c = 255 := by
  intro y x c
  simp only [thresholdBinary]
  split
  · right; rfl
  · left; rfl

theorem normalizeGray_binary (cv : CV) (g : Image) :
    ∀ y x c, (normalizeGray cv g).data y x c = 0 ∨
      (normalizeGray cv g).data y x c = 255 := by
  unfold normalizeGray morphologyClose morphologyOpen
  exact erode_binary _ _ (dilate_binary _ _ (dilate_binary _ _ (erode_binary _ _
    (thresholdBinary_binary _ _))))

theorem normalizeGray_height (cv : CV) (g : Image) :
    (normalizeGray cv g).height = g.height := by
  simp [normalizeGray, morphologyClose, morphologyOpen, erode, dilate,
    thresholdBinary, cv.clahe_height]

theorem normalizeGray_width (cv : CV) (g : Image) :
    (normalizeGray cv g).width = g.width := by
  simp [normalizeGray, morphologyClose, morphologyOpen, erode, dilate,
    thresholdBinary, cv.clahe_width]

theorem normalizeGray_channels (cv : CV) (g : Image) :
    (normalizeGray cv g).channels = g.channels := by
  simp [normalizeGray, morphologyClose, morphologyOpen, erode, dilate,
    thresholdBinary, cv.clahe_channels]

theorem detect_document_eq (cv : CV) (img : Image) (hch : img.channels = 3) :
    detect_document cv img =
      match scanContours cv ((img.height * img.width : Nat) : ℚ)
          (sortByAreaDesc (cv.contoursOf (bgr2grayImage img))) with
      | some approx => four_point_transform cv img (quadOfList approx)
      | none => .ok img := by
  unfold detect_document cvtColor_BGR2GRAY
  rw [if_pos hch]

/-- C10: the `np.ones((1,1))` structuring element makes both morphological
operations the identity on every image (pixel-for-pixel, geometry
preserved), and consequently the image `preprocess_image` returns is
pixel-for-pixel the Otsu-threshold stage output: the opening and closing
steps have no effect. -/
theorem morphology_noop_binary_equals_otsu (cv : CV) (image : Image) :
    (∀ img, (morphologyOpen ones11 img).PixEq img ∧
      (morphologyClose ones11 img).PixEq img) ∧
    ExceptPix (preprocess_image cv image) (otsuStage cv image) := by
  refine ⟨fun img => ⟨morphologyOpen_ones11 img, morphologyClose_ones11 img⟩, ?_⟩
  unfold preprocess_image otsuStage
  cases hd : detect_document cv image with
  | error e => exact rfl
  | ok d =>
    show ExceptPix
      (match cvtColor_BGR2GRAY d with
        | .error e => Except.error e
        | .ok gray => Except.ok (normalizeGray cv gray))
      (match cvtColor_BGR2GRAY d with
        | .error e => Except.error e
        | .ok gray => Except.ok (thresholdBinary (cv.otsu (cv.clahe gray)) (cv.clahe gray)))
    cases hg : cvtColor_BGR2GRAY d with
    | error e => exact rfl
    | ok g =>
      show (normalizeGray cv g).PixEq (thresholdBinary (cv.otsu (cv.clahe g)) (cv.clahe g))
      exact (morphologyClose_ones11 _).trans (morphologyOpen_ones11 _)

/-- C7: on any non-empty grayscale input, the normalization stage of
`preprocess_image` (CLAHE, Otsu thresholding, opening, closing) outputs a
single-channel image every pixel of which is 0 or 255. -/
theorem normalize_binary_output (cv : CV) (gray : Image)
    (hch : gray.channels = 1) (hh : 1 ≤ gray.height) (hw : 1 ≤ gray.width) :
    (normalizeGray cv gray).channels = 1 ∧
    ∀ y x c, (normalizeGray cv gray).data y x c = 0 ∨
      (normalizeGray cv gray).data y x c = 255 :=
  ⟨(normalizeGray_channels cv gray).trans hch, normalizeGray_binary cv gray⟩

/-- Witness for the C7 theorem at a concrete 2-by-3 grayscale image. -/
theorem normalize_binary_output_witness :
    (normalizeGray cvId grayTest).channels = 1 ∧
    ∀ y x c, (normalizeGray cvId grayTest).data y x c = 0 ∨
      (normalizeGray cvId grayTest).data y x c = 255 :=
  normalize_binary_output cvId grayTest rfl (by decide) (by decide)

theorem scanContours_eq_none (cv : CV) (A : ℚ) (l : List Contour)
    (h : ∀ c ∈ l, ¬ passes cv A c) : scanContours cv A l = none := by
  rw [scanContours_eq_find, List.find?_eq_none.mpr, Option.map_none']
  intro c hc
  simpa using h c hc

/-- C2: when no extracted contour passes the 4-vertex, area-fraction and
aspect constraints, the selection loop's result is `none` — not an error —
and `preprocess_image` returns the normalization of the full original image,
uncropped: the output geometry equals the input geometry, so the aspect
ratio is unchanged. -/
theorem preprocess_full_frame_when_no_candidate (cv : CV) (img : Image)
    (hch : img.channels = 3)
    (hnone : ∀ c ∈ cv.contoursOf (bgr2grayImage img),
      ¬ passes cv ((img.height * img.width : Nat) : ℚ) c) :
    scanContours cv ((img.height * img.width : Nat) : ℚ)
      (sortByAreaDesc (cv.contoursOf (bgr2grayImage img))) = none ∧
    preprocess_image cv img = .ok (normalizeGray cv (bgr2grayImage img)) ∧
    (normalizeGray cv (bgr2grayImage img)).height = img.height ∧
    (normalizeGray cv (bgr2grayImage img)).width = img.width := by
  have hscan : scanContours cv ((img.height * img.width : Nat) : ℚ)
      (sortByAreaDesc (cv.contoursOf (bgr2grayImage img))) = none := by
    refine scanContours_eq_none cv _ _ fun c hc => hnone c ?_
    unfold sortByAreaDesc at hc
    exact List.mem_mergeSort.mp hc
  refine ⟨hscan, ?_, (normalizeGray_height cv _).trans rfl,
    (normalizeGray_width cv _).trans rfl⟩
  unfold preprocess_image
  rw [detect_document_eq cv img hch, hscan]
  show (match cvtColor_BGR2GRAY img with
    | .error e => Except.error e
    | .ok gray => Except.ok (normalizeGray cv gray)) = _
  unfold cvtColor_BGR2GRAY
  rw [if_pos hch]

/-- Witness for the C2 theorem: a collaborator extracting no contours on a
concrete 3-channel image. -/
theorem preprocess_full_frame_witness :
    scanContours cvId ((imgRGB.height * imgRGB.width : Nat) : ℚ)
      (sortByAreaDesc (cvId.contoursOf (bgr2grayImage imgRGB))) = none ∧
    preprocess_image cvId imgRGB = .ok (normalizeGray cvId (bgr2grayImage imgRGB)) ∧
    (normalizeGray cvId (bgr2grayImage imgRGB)).height = imgRGB.height ∧
    (normalizeGray cvId (bgr2grayImage imgRGB)).width = imgRGB.width :=
  preprocess_full_frame_when_no_candidate cvId imgRGB rfl
    (by intro c hc; simp [cvId] at hc)

/-- C1 counterexample: a well-formed non-empty single-channel input — which
the claim includes — makes `preprocess_image` raise at the very first
BGR-to-gray conversion inside document detection, because OpenCV's
`cvtColor(..., COLOR_BGR2GRAY)` requires a 3-channel source. -/
theorem preprocess_raises_on_gray_input :
    preprocess_image cvId imgGray1 = Except.error CvErr.badChannels := rfl

/-- C1 (amended): for every well-formed non-empty 3-channel input image,
`preprocess_image` never raises: it returns a single-channel binary image
(every pixel 0 or 255), whether or not a document quadrilateral is found. -/
theorem preprocess_total_3channel (cv : CV) (img : Image)
    (hch : img.channels = 3) (hh : 1 ≤ img.height) (hw : 1 ≤ img.width) :
    ∃ out, preprocess_image cv img = .ok out ∧ out.channels = 1 ∧
      ∀ y x c, out.data y x c = 0 ∨ out.data y x c = 255 := by
  have hd : ∃ d, detect_document cv img = .ok d ∧ d.channels = 3 := by
    rw [detect_document_eq cv img hch]
    cases scanContours cv ((img.height * img.width : Nat) : ℚ)
        (sortByAreaDesc (cv.contoursOf (bgr2grayImage img))) with
    | some approx =>
      refine ⟨_, rfl, ?_⟩
      unfold warpPerspective
      split <;> exact hch
    | none => exact ⟨img, rfl, hch⟩
  obtain ⟨d, hd, hdch⟩ := hd
  refine ⟨normalizeGray cv (bgr2grayImage d), ?_,
    (normalizeGray_channels cv _).trans rfl, normalizeGray_binary cv _⟩
  unfold preprocess_image
  rw [hd]
  show (match cvtColor_BGR2GRAY d with
    | .error e => Except.error e
    | .ok gray => Except.ok (normalizeGray cv gray)) = _
  unfold cvtColor_BGR2GRAY
  rw [if_pos hdch]

/-- Witness for the amended C1 theorem at a concrete 3-channel image. -/
theorem preprocess_total_3channel_witness :
    ∃ out, preprocess_image cvId imgRGB = .ok out ∧ out.channels = 1 ∧
      ∀ y x c, out.data y x c = 0 ∨ out.data y x c = 255 :=
  preprocess_total_3channel cvId imgRGB rfl (by decide) (by decide)

/-- C8: whenever the OCR collaborator fails with any exception,
`extract_text` returns exactly the empty string instead of propagating the
failure. -/
theorem extract_text_empty_on_failure {ε : Type} (ocr : Image → Except ε String)
    (img : Image) (e : ε) (h : ocr img = .error e) :
    extract_text ocr img = "" := by
  unfold extract_text
  rw [h]

/-- Witness for the C8 theorem: a collaborator that always fails. -/
theorem extract_text_empty_on_failure_witness : extract_text failOcr imgGray1 = "" :=
  extract_text_empty_on_failure failOcr imgGray1 () rfl

theorem findSubIdx_spec : ∀ (hay needle : List Char) (i : Nat),
    findSubIdx hay needle = some i →
      needle.isPrefixOf (hay.drop i) = true ∧
      ∀ j, j < i → needle.isPrefixOf (hay.drop j) = false := by
  intro hay
  induction hay with
  | nil =>
    intro needle i h
    unfold findSubIdx at h
    by_cases hn : needle = []
    · rw [if_pos hn] at h
      obtain rfl : i = 0 := (Option.some.inj h).symm
      subst hn
      exact ⟨rfl, fun j hj => absurd hj (by omega)⟩
    · rw [if_neg hn] at h
      exact absurd h (by simp)
  | cons a rest ih =>
    intro needle i h
    unfold findSubIdx at h
    by_cases hp : needle.isPrefixOf (a :: rest) = true
    · rw [if_pos hp] at h
      obtain rfl : i = 0 := (Option.some.inj h).symm
      exact ⟨hp, fun j hj => absurd hj (by omega)⟩
    · rw [if_neg hp] at h
      cases hf : findSubIdx rest needle with
      | none => rw [hf] at h; exact absurd h (by simp)
      | some i' =>
        rw [hf] at h
        simp only [Option.map_some'] at h
        obtain rfl : i = i' + 1 := (Option.some.inj h).symm
        obtain ⟨h1, h2⟩ := ih needle i' hf
        refine ⟨by simpa using h1, ?_⟩
        intro j hj
        cases j with
        | zero => exact Bool.eq_false_iff.mpr hp
        | succ j' => simpa using h2 j' (by omega)

theorem search_documents_eq_spec (q : String) :
    ∀ files, search_documents q files = search_documents_spec q files := by
  intro files
  induction files with
  | nil => rfl
  | cons pc rest ih =>
    obtain ⟨path, content⟩ := pc
    simp only [search_documents, search_documents_spec, List.filterMap_cons]
    by_cases ht : path.endsWith (".txt") = true
    · rw [if_pos ht, if_pos ht]
      cases hf : findSubIdx (pyLower content).data (pyLower q).data with
      | some i => rw [ih]; rfl
      | none => rw [ih]; rfl
    · rw [if_neg ht, if_neg ht, ih]
      rfl

/-- C9: `search_documents` agrees with its specification — a
case-insensitive substring lookup across exactly the `.txt` files, each
match reported with the context snippet clamped 30 characters each side of
the first match index — and the match index the lookup uses is correct: the
lowercased query occurs there and at no earlier position. -/
theorem search_documents_correct (query : String) (files : List (String × String)) :
    search_documents query files = search_documents_spec query files ∧
    ∀ hay needle i, findSubIdx hay needle = some i →
      needle.isPrefixOf (hay.drop i) = true ∧
      ∀ j, j < i → needle.isPrefixOf (hay.drop j) = false :=
  ⟨search_documents_eq_spec query files, findSubIdx_spec⟩

end DrScanner
